import Mathlib

/-
Shallow embedding of src/lexers/LexTerminal.cxx (the terminal-output lexer).

Conventions of the embedding:
* A document character is a Lean `Char`; a line buffer is a `List Char`.
  C strings are modelled by `cstrOf`, which truncates a buffer at its first
  NUL byte (`c_str()` semantics for the `strstr`/`strstart`/`strchr` family),
  while direct `lineBuffer[i]` indexing uses the raw buffer via `getC`
  (reading one past the end yields the terminating NUL, as `c_str()` does).
* Style ids are `Nat`, with the numeric values of the wxSTC_TERMINAL_*
  constants from src/include/ExtraLexers.h (DEFAULT = 0, ..., ESCSEQ = 23,
  ESCSEQ_UNKNOWN = 24, BASH = 26, ES_BLACK = 40 .. ES_WHITE = 55,
  GCC_WARNING = 56, GCC_NOTE = 57).
* Document positions are `Int` (Sci_Position is signed; the emitter's
  startPortion variable can be -1).
* The style sink is modelled as the trace of `ColourTo(pos, style)` calls,
  a `List (Int × Nat)`.  `toSpans` interprets a trace as half-open spans:
  a call at position p styles from one past the previous call's position
  through p inclusive.
* `while` loops that do not structurally descend are written with an explicit
  fuel argument; every call site passes fuel that provably dominates the
  number of iterations (each iteration consumes at least one character), so
  the fuel-exhaustion branch is unreachable and mirrors normal loop exit.
-/

namespace TerminalLex

/-- NUL, the C string terminator. -/
def NUL : Char := '\x00'

/-- Is0To9 from LexTerminal.cxx: ch is in the range of the digits 0-9 (codes 48-57). -/
def Is0To9 (c : Char) : Bool := 48 ≤ c.toNat && c.toNat ≤ 57

/-- Is1To9 from LexTerminal.cxx: codes 49-57. -/
def Is1To9 (c : Char) : Bool := 49 ≤ c.toNat && c.toNat ≤ 57

/-- IsUpperOrLowerCase from Lexilla's LexCharacterSet.h: an ASCII letter. -/
def IsUpperOrLowerCase (c : Char) : Bool :=
  (65 ≤ c.toNat && c.toNat ≤ 90) || (97 ≤ c.toNat && c.toNat ≤ 122)

/-- Lower-case an ASCII letter, as Lexilla's MakeLowerCase does. -/
def toLowerAscii (c : Char) : Char :=
  if 65 ≤ c.toNat && c.toNat ≤ 90 then Char.ofNat (c.toNat + 32) else c

/-- View of a buffer as a C string: everything before the first NUL. -/
def cstrOf (l : List Char) : List Char := l.takeWhile (fun c => c != NUL)

/-- Raw indexed read of a line buffer; one past the end reads the NUL that
c_str() guarantees there. -/
def getC (l : List Char) (i : Nat) : Char := l.getD i NUL

/-- String->char-list conversion, for writing needles and test lines. -/
def toL (s : String) : List Char := s.data

/-- Bool-valued list prefix test (strncmp(hay, needle, strlen(needle)) == 0). -/
def startsList : List Char → List Char → Bool
  | [], _ => true
  | _ :: _, [] => false
  | a :: as, b :: bs => a == b && startsList as bs

/-- Index of the first occurrence of needle in hay (both already C-string
views), as strstr computes it.  none models a NULL result. -/
def strstrIdx (hay needle : List Char) : Option Nat :=
  match hay with
  | [] => if needle.isEmpty then some 0 else none
  | _ :: rest =>
    if startsList needle hay then some 0
    else (strstrIdx rest needle).map (· + 1)

/-- strstart from LexTerminal.cxx, on the raw buffer. -/
def strstart (l needle : List Char) : Bool := startsList needle (cstrOf l)

/-- strstr on the raw buffer, returning the match index. -/
def strstr (l needle : List Char) : Option Nat := strstrIdx (cstrOf l) needle

/-- strstr viewed as a containment test (the C code's `strstr(...) != NULL`). -/
def hasStr (l needle : List Char) : Bool := (strstr l needle).isSome

/-- strchr viewed as a containment test. -/
def strchrB (l : List Char) (c : Char) : Bool := (cstrOf l).contains c

/-- Comparison of two strstr results (pointer comparison p1 < p2 guarded by
both being non-NULL). -/
def ltIdx : Option Nat → Option Nat → Bool
  | some i, some j => i < j
  | _, _ => false

/-- A strstr result that is non-NULL and before lineBuffer + len. -/
def inRangeIdx : Option Nat → Nat → Bool
  | some i, len => i < len
  | none, _ => false

/-- IsGccExcerpt from LexTerminal.cxx, on the C-string view of the line. -/
def IsGccExcerpt : List Char → Bool
  | [] => true
  | c :: rest =>
    if c == ' ' && getC rest 0 == '|' && (getC rest 1 == ' ' || getC rest 1 == '+') then true
    else if !(c == ' ' || c == '+' || Is0To9 c) then false
    else IsGccExcerpt rest

/-- The bashDiagnosticMark constant ": line ". -/
def bashMark : List Char := toL ": line "

/-- The rest-checking block of IsBashDiagnostic: the text after the mark is
non-empty, starts with a digit, and after stripping the leading digit run
the next character is a colon. -/
def digitsThenColon : List Char → Bool
  | [] => false
  | c :: rest =>
    if !(Is0To9 c) then false
    else
      match (c :: rest).dropWhile Is0To9 with
      | [] => false
      | d :: _ => d == ':'

/-- IsBashDiagnostic from LexTerminal.cxx, on the C-string view of the line:
the first occurrence of ": line " must be followed by at least one digit and
then a colon. -/
def IsBashDiagnostic (sv : List Char) : Bool :=
  match strstrIdx sv bashMark with
  | none => false
  | some mark => digitsThenColon (sv.drop (mark + bashMark.length))

/-- InListCaseInsensitive check against the six diagnostic keywords. -/
def inDiagnosticWords (w : List Char) : Bool :=
  [toL "error", toL "warning", toL "fatal", toL "catastrophic", toL "note", toL "remark"].any
    (fun t => w.map toLowerAscii == t)

/-- The states of the generic recognition scan in RecogniseErrorListLine. -/
inductive ScanSt where
  | initial | gccStart | gccDigit | gccColumn | gcc
  | msStart | msDigit | msBracket | msVc | msDigitComma | msDotNet
  | ctagsStart | ctagsFile | ctagsStartString | ctagsStringDollar | ctags
  | unrecognized
deriving DecidableEq

/-- One left-to-right pass of the generic scan of RecogniseErrorListLine
(lines 230-331 of LexTerminal.cxx).  Arguments after initialTab: remaining
fuel (call sites pass len so that the loop runs for i = 0..len-1), current
index i, state, canBeCtags, initialColonPart, startValue.  Returns the state,
initialColonPart and startValue at loop exit (including the mid-loop breaks). -/
def scanLoop (l : List Char) (len : Nat) (initialTab : Bool) :
    Nat → Nat → ScanSt → Bool → Bool → Int → ScanSt × Bool × Int
  | 0, _, st, _, icp, sv => (st, icp, sv)
  | fuel + 1, i, st, cbc, icp, sv =>
    let ch := getC l i
    let chNext := if i + 1 < len then getC l (i + 1) else ' '
    match st with
    | ScanSt.initial =>
      if ch == ':' then
        if chNext != '\\' && chNext != '/' && chNext != ' ' then
          scanLoop l len initialTab fuel (i + 1) ScanSt.gccStart cbc icp sv
        else if chNext == ' ' then
          scanLoop l len initialTab fuel (i + 1) ScanSt.initial cbc true sv
        else scanLoop l len initialTab fuel (i + 1) ScanSt.initial cbc icp sv
      else if ch == '(' && Is1To9 chNext && !initialTab then
        scanLoop l len initialTab fuel (i + 1) ScanSt.msStart cbc icp sv
      else if ch == '\t' && cbc then
        scanLoop l len initialTab fuel (i + 1) ScanSt.ctagsStart cbc icp sv
      else if ch == ' ' then
        scanLoop l len initialTab fuel (i + 1) ScanSt.initial false icp sv
      else scanLoop l len initialTab fuel (i + 1) ScanSt.initial cbc icp sv
    | ScanSt.gccStart =>
      scanLoop l len initialTab fuel (i + 1)
        (if ch == '-' || Is0To9 ch then ScanSt.gccDigit else ScanSt.unrecognized) cbc icp sv
    | ScanSt.gccDigit =>
      if ch == ':' then
        scanLoop l len initialTab fuel (i + 1) ScanSt.gccColumn cbc icp ((i : Int) + 1)
      else if !(Is0To9 ch) then
        scanLoop l len initialTab fuel (i + 1) ScanSt.unrecognized cbc icp sv
      else scanLoop l len initialTab fuel (i + 1) ScanSt.gccDigit cbc icp sv
    | ScanSt.gccColumn =>
      if !(Is0To9 ch) then
        (ScanSt.gcc, icp, if ch == ':' then (i : Int) + 1 else sv)
      else scanLoop l len initialTab fuel (i + 1) ScanSt.gccColumn cbc icp sv
    | ScanSt.msStart =>
      scanLoop l len initialTab fuel (i + 1)
        (if Is0To9 ch then ScanSt.msDigit else ScanSt.unrecognized) cbc icp sv
    | ScanSt.msDigit =>
      if ch == ',' then scanLoop l len initialTab fuel (i + 1) ScanSt.msDigitComma cbc icp sv
      else if ch == ')' then scanLoop l len initialTab fuel (i + 1) ScanSt.msBracket cbc icp sv
      else if ch != ' ' && !(Is0To9 ch) then
        scanLoop l len initialTab fuel (i + 1) ScanSt.unrecognized cbc icp sv
      else scanLoop l len initialTab fuel (i + 1) ScanSt.msDigit cbc icp sv
    | ScanSt.msBracket =>
      if ch == ' ' && chNext == ':' then
        scanLoop l len initialTab fuel (i + 1) ScanSt.msVc cbc icp sv
      else if (ch == ':' && chNext == ' ') || ch == ' ' then
        let numstep : Nat := if ch == ' ' then 1 else 2
        let word := ((l.drop (i + numstep)).takeWhile IsUpperOrLowerCase).take 511
        if inDiagnosticWords word then
          scanLoop l len initialTab fuel (i + 1) ScanSt.msVc cbc icp sv
        else scanLoop l len initialTab fuel (i + 1) ScanSt.unrecognized cbc icp sv
      else scanLoop l len initialTab fuel (i + 1) ScanSt.unrecognized cbc icp sv
    | ScanSt.msDigitComma =>
      if ch == ')' then (ScanSt.msDotNet, icp, sv)
      else if ch != ' ' && !(Is0To9 ch) then
        scanLoop l len initialTab fuel (i + 1) ScanSt.unrecognized cbc icp sv
      else scanLoop l len initialTab fuel (i + 1) ScanSt.msDigitComma cbc icp sv
    | ScanSt.ctagsStart =>
      if ch == '\t' then scanLoop l len initialTab fuel (i + 1) ScanSt.ctagsFile cbc icp sv
      else scanLoop l len initialTab fuel (i + 1) ScanSt.ctagsStart cbc icp sv
    | ScanSt.ctagsFile =>
      if getC l (i - 1) == '\t' && ((ch == '/' && chNext == '^') || Is0To9 ch) then
        (ScanSt.ctags, icp, sv)
      else if ch == '/' && chNext == '^' then
        scanLoop l len initialTab fuel (i + 1) ScanSt.ctagsStartString cbc icp sv
      else scanLoop l len initialTab fuel (i + 1) ScanSt.ctagsFile cbc icp sv
    | ScanSt.ctagsStartString =>
      if getC l i == '$' && getC l (i + 1) == '/' then (ScanSt.ctagsStringDollar, icp, sv)
      else scanLoop l len initialTab fuel (i + 1) ScanSt.ctagsStartString cbc icp sv
    | st' => scanLoop l len initialTab fuel (i + 1) st' cbc icp sv

/-- The final dispatch of RecogniseErrorListLine on the scan result
(lines 332-355): Lua 5.1, GCC warning/note/plain, Microsoft, CTags,
Microsoft warning without line number, or Default. -/
def genericScan (l : List Char) : Nat × Int :=
  let len := l.length
  let initialTab := getC l 0 == '\t'
  let r := scanLoop l len initialTab len 0 ScanSt.initial (!initialTab) false (-1)
  let st := r.1
  let icp := r.2.1
  let sv := r.2.2
  if st == ScanSt.gcc then
    if icp then (8, sv)
    else if hasStr l (toL "warning:") then (56, sv)
    else if hasStr l (toL "note:") then (57, sv)
    else (2, sv)
  else if st == ScanSt.msVc || st == ScanSt.msDotNet then (3, sv)
  else if st == ScanSt.ctagsStringDollar || st == ScanSt.ctags then (9, sv)
  else if icp && hasStr l (toL ": warning C") then (3, sv)
  else (0, sv)

/-- The chain of literal-pattern rules of RecogniseErrorListLine that are
checked before the bash-diagnostic rule (lines 112-187): some style when one
of them returns, none when control falls through to IsBashDiagnostic. -/
def earlyRules (l : List Char) : Option Nat :=
  let len := l.length
  if getC l 0 == '>' then some 4
  else if getC l 0 == '<' then some 12
  else if getC l 0 == '!' then some 10
  else if getC l 0 == '+' then
    if strstart l (toL "+++ ") then some 13 else some 11
  else if getC l 0 == '-' && !(strstart l (toL "-rw") || strstart l (toL "-r-")) then
    if strstart l (toL "--- ") then some 13
    else if strstart l (toL "-- ") then some 0
    else some 12
  else if strstart l (toL "cf90-") then some 18
  else if strstart l (toL "fortcom:") then some 17
  else if hasStr l (toL "File \"") && hasStr l (toL ", line ") then some 1
  else if hasStr l (toL " in ") && hasStr l (toL " on line ") then some 14
  else if (strstart l (toL "Error ") || strstart l (toL "Warning ")) &&
      ltIdx (strstr l (toL " at (")) (strstr l (toL ") : ")) then some 16
  else if strstart l (toL "Error ") then some 5
  else if strstart l (toL "Warning ") then some 5
  else if inRangeIdx (strstr l (toL "at line ")) len && inRangeIdx (strstr l (toL "file ")) len then
    some 8
  else if (match strstr l (toL " at "), strstr l (toL " line ") with
      | some i, some j => decide (i < len) && decide (j < len) && decide (i + 4 < j)
      | _, _ => false) then some 6
  else if 6 ≤ len ∧ (l.take 6 == toL "   at ") = true ∧ hasStr l (toL ":line ") = true then some 7
  else if strstart l (toL "Line ") && hasStr l (toL ", file ") then some 15
  else if strstart l (toL "line ") && hasStr l (toL " column ") then some 19
  else if strstart l (toL "\tat ") && strchrB l '(' && hasStr l (toL ".java:") then some 20
  else if strstart l (toL "In file included from ") ||
      strstart l (toL "                 from ") then some 22
  else if strstart l (toL "NMAKE : fatal error") then some 3
  else if hasStr l (toL "warning LNK") || hasStr l (toL "error LNK") then some 3
  else none

/-- RecogniseErrorListLine (style, startValue); startValue is -1 when the
generic scan did not set it, as the caller initialises it. -/
def RecogniseErrorListLine (l : List Char) : Nat × Int :=
  match earlyRules l with
  | some st => (st, -1)
  | none =>
    if IsBashDiagnostic (cstrOf l) then (26, -1)
    else if IsGccExcerpt (cstrOf l) then (25, -1)
    else genericScan l

/-- The 16-entry base palette base_colours from LexTerminal.cxx. -/
def base_colours : List Nat :=
  [0x000000, 0xcd0000, 0x00cd00, 0xcdcd00, 0x0000ee, 0xcd00cd, 0x00cdcd, 0xe5e5e5,
   0x7f7f7f, 0xff0000, 0x00ff00, 0xffff00, 0x5c5cff, 0xff00ff, 0x00ffff, 0xffffff]

/-- Indexed read of the base palette. -/
def baseColour (i : Nat) : Nat := base_colours.getD i 0

/-- base_colour_to_style from LexTerminal.cxx: the numeric values of
ES_BLACK, ES_RED, ES_GREEN, ES_BROWN, ES_BLUE, ES_MAGENTA, ES_CYAN, ES_GRAY,
ES_DARK_GRAY, ES_BRIGHT_RED, ES_BRIGHT_GREEN, ES_YELLOW, ES_BRIGHT_BLUE,
ES_BRIGHT_MAGENTA, ES_BRIGHT_CYAN, ES_WHITE. -/
def base_colour_to_style : List Nat :=
  [40, 41, 42, 43, 44, 45, 46, 47, 48, 49, 50, 51, 52, 53, 54, 55]

/-- Indexed read of base_colour_to_style. -/
def styleOfIndex (i : Nat) : Nat := base_colour_to_style.getD i 0

/-- The 256-entry ANSI palette table of rgb_from_ansi256. -/
def ansi256Table : List Nat :=
  [0x000000, 0xcd0000, 0x00cd00, 0xcdcd00,
   0x0000ee, 0xcd00cd, 0x00cdcd, 0xe5e5e5,
   0x7f7f7f, 0xff0000, 0x00ff00, 0xffff00,
   0x5c5cff, 0xff00ff, 0x00ffff, 0xffffff,
   0x000000, 0x00005f, 0x000087, 0x0000af,
   0x0000d7, 0x0000ff, 0x005f00, 0x005f5f,
   0x005f87, 0x005faf, 0x005fd7, 0x005fff,
   0x008700, 0x00875f, 0x008787, 0x0087af,
   0x0087d7, 0x0087ff, 0x00af00, 0x00af5f,
   0x00af87, 0x00afaf, 0x00afd7, 0x00afff,
   0x00d700, 0x00d75f, 0x00d787, 0x00d7af,
   0x00d7d7, 0x00d7ff, 0x00ff00, 0x00ff5f,
   0x00ff87, 0x00ffaf, 0x00ffd7, 0x00ffff,
   0x5f0000, 0x5f005f, 0x5f0087, 0x5f00af,
   0x5f00d7, 0x5f00ff, 0x5f5f00, 0x5f5f5f,
   0x5f5f87, 0x5f5faf, 0x5f5fd7, 0x5f5fff,
   0x5f8700, 0x5f875f, 0x5f8787, 0x5f87af,
   0x5f87d7, 0x5f87ff, 0x5faf00, 0x5faf5f,
   0x5faf87, 0x5fafaf, 0x5fafd7, 0x5fafff,
   0x5fd700, 0x5fd75f, 0x5fd787, 0x5fd7af,
   0x5fd7d7, 0x5fd7ff, 0x5fff00, 0x5fff5f,
   0x5fff87, 0x5fffaf, 0x5fffd7, 0x5fffff,
   0x870000, 0x87005f, 0x870087, 0x8700af,
   0x8700d7, 0x8700ff, 0x875f00, 0x875f5f,
   0x875f87, 0x875faf, 0x875fd7, 0x875fff,
   0x878700, 0x87875f, 0x878787, 0x8787af,
   0x8787d7, 0x8787ff, 0x87af00, 0x87af5f,
   0x87af87, 0x87afaf, 0x87afd7, 0x87afff,
   0x87d700, 0x87d75f, 0x87d787, 0x87d7af,
   0x87d7d7, 0x87d7ff, 0x87ff00, 0x87ff5f,
   0x87ff87, 0x87ffaf, 0x87ffd7, 0x87ffff,
   0xaf0000, 0xaf005f, 0xaf0087, 0xaf00af,
   0xaf00d7, 0xaf00ff, 0xaf5f00, 0xaf5f5f,
   0xaf5f87, 0xaf5faf, 0xaf5fd7, 0xaf5fff,
   0xaf8700, 0xaf875f, 0xaf8787, 0xaf87af,
   0xaf87d7, 0xaf87ff, 0xafaf00, 0xafaf5f,
   0xafaf87, 0xafafaf, 0xafafd7, 0xafafff,
   0xafd700, 0xafd75f, 0xafd787, 0xafd7af,
   0xafd7d7, 0xafd7ff, 0xafff00, 0xafff5f,
   0xafff87, 0xafffaf, 0xafffd7, 0xafffff,
   0xd70000, 0xd7005f, 0xd70087, 0xd700af,
   0xd700d7, 0xd700ff, 0xd75f00, 0xd75f5f,
   0xd75f87, 0xd75faf, 0xd75fd7, 0xd75fff,
   0xd78700, 0xd7875f, 0xd78787, 0xd787af,
   0xd787d7, 0xd787ff, 0xd7af00, 0xd7af5f,
   0xd7af87, 0xd7afaf, 0xd7afd7, 0xd7afff,
   0xd7d700, 0xd7d75f, 0xd7d787, 0xd7d7af,
   0xd7d7d7, 0xd7d7ff, 0xd7ff00, 0xd7ff5f,
   0xd7ff87, 0xd7ffaf, 0xd7ffd7, 0xd7ffff,
   0xff0000, 0xff005f, 0xff0087, 0xff00af,
   0xff00d7, 0xff00ff, 0xff5f00, 0xff5f5f,
   0xff5f87, 0xff5faf, 0xff5fd7, 0xff5fff,
   0xff8700, 0xff875f, 0xff8787, 0xff87af,
   0xff87d7, 0xff87ff, 0xffaf00, 0xffaf5f,
   0xffaf87, 0xffafaf, 0xffafd7, 0xffafff,
   0xffd700, 0xffd75f, 0xffd787, 0xffd7af,
   0xffd7d7, 0xffd7ff, 0xffff00, 0xffff5f,
   0xffff87, 0xffffaf, 0xffffd7, 0xffffff,
   0x080808, 0x121212, 0x1c1c1c, 0x262626,
   0x303030, 0x3a3a3a, 0x444444, 0x4e4e4e,
   0x585858, 0x626262, 0x6c6c6c, 0x767676,
   0x808080, 0x8a8a8a, 0x949494, 0x9e9e9e,
   0xa8a8a8, 0xb2b2b2, 0xbcbcbc, 0xc6c6c6,
   0xd0d0d0, 0xdadada, 0xe4e4e4, 0xeeeeee]

/-- rgb_from_ansi256: look up the 256-colour palette (callers pass a value
already reduced to uint8_t range). -/
def rgb_from_ansi256 (n : Nat) : Nat := ansi256Table.getD n 0

/-- The R macro: red component of a packed 24-bit colour ((c >> 16) & 0xff). -/
def R (c : Nat) : Nat := (c >>> 16) % 256

/-- The G macro: green component ((c >> 8) & 0xff). -/
def G (c : Nat) : Nat := (c >>> 8) % 256

/-- The B macro: blue component (c & 0xff). -/
def B (c : Nat) : Nat := c % 256

/-- distance from LexTerminal.cxx: redmean-style weighted squared colour
difference.  The int32_t arithmetic of the source cannot overflow (every
term is at most 1534 * 255 * 255), so plain Int arithmetic is faithful. -/
def distance (x y : Nat) : Int :=
  let r_sum : Int := (R x : Int) + (R y : Int)
  let r : Int := (R x : Int) - (R y : Int)
  let g : Int := (G x : Int) - (G y : Int)
  let b : Int := (B x : Int) - (B y : Int)
  (1024 + r_sum) * r * r + 2048 * g * g + (1534 - r_sum) * b * b

/-- The minimum-distance search loop of style_from_colour_number, with the
accumulator (dist, index) starting at ((uint32_t)-1, 0); an entry replaces
the accumulator only when strictly closer, so the first index attaining the
minimum wins. -/
def nearestAux (e : Nat) : List Nat → Int × Nat → Int × Nat
  | [], acc => acc
  | i :: rest, acc =>
    let curdist := distance e (baseColour i)
    if curdist < acc.1 then nearestAux e rest (curdist, i) else nearestAux e rest acc

/-- Index of the nearest base colour, as computed by the loop in
style_from_colour_number over i = 0..15. -/
def nearest_index (e : Nat) : Nat := (nearestAux e (List.range 16) ((4294967295 : Int), 0)).2

/-- style_from_colour_number: direct mapping for 30-37 and 90-97, otherwise
nearest-base-colour quantisation of the 256-colour palette entry. -/
def style_from_colour_number (n : Nat) : Nat :=
  if 30 ≤ n ∧ n ≤ 37 then styleOfIndex (n - 30)
  else if 90 ≤ n ∧ n ≤ 97 then styleOfIndex (n - 90 + 8)
  else styleOfIndex (nearest_index (rgb_from_ansi256 n))

/-- SequenceEnd from LexTerminal.cxx: NUL or a CSI final byte 0x40-0x7e. -/
def SequenceEnd (c : Char) : Bool := c.toNat == 0 || (64 ≤ c.toNat && c.toNat ≤ 126)

/-- IsSeparator from LexTerminal.cxx: a ';' or ':' parameter separator. -/
def IsSeparator (c : Char) : Bool := c == ';' || c == ':'

/-- Token kinds produced by ReadNext. -/
inductive TokenType where
  | eof | number | separator
deriving DecidableEq

/-- Value of a decimal digit run, as atoi parses it (the run is maximal, so
atoi consumes exactly these characters). -/
def parseNum (ds : List Char) : Nat := ds.foldl (fun a c => 10 * a + (c.toNat - 48)) 0

/-- ReadNext from LexTerminal.cxx: scan one token (token type, numeric value,
consumed length) off a parameter string.  The scan stops at SequenceEnd
characters; reaching the end of the list is reaching the NUL terminator. -/
def ReadNext (s : List Char) : TokenType × Nat × Nat :=
  match s with
  | [] => (TokenType.eof, 0, 0)
  | c :: _ =>
    if SequenceEnd c then (TokenType.eof, 0, 0)
    else if Is0To9 c then
      let ds := s.takeWhile Is0To9
      (TokenType.number, parseNum ds, ds.length)
    else if IsSeparator c then (TokenType.separator, 0, 1)
    else (TokenType.eof, 0, 1)

/-- The part of StyleFromSequence after the optional leading attribute code:
the 38-extended-foreground form, the 48 background form, and the plain
number form.  The final number of the 38;5;n form is cast to uint8_t,
modelled by reduction modulo 256. -/
def styleFromToken (p : List Char) (t : TokenType) (n c : Nat) : Nat :=
  if t == TokenType.number && n == 38 then
    let p1 := p.drop c
    let r1 := ReadNext p1
    if r1.1 != TokenType.separator then 0
    else
      let p2 := p1.drop r1.2.2
      let r2 := ReadNext p2
      if r2.1 != TokenType.number then 0
      else if r2.2.1 != 5 then 0
      else
        let p3 := p2.drop r2.2.2
        let r3 := ReadNext p3
        if r3.1 != TokenType.separator then 0
        else
          let p4 := p3.drop r3.2.2
          let r4 := ReadNext p4
          if r4.1 != TokenType.number then 0
          else style_from_colour_number (r4.2.1 % 256)
  else if t == TokenType.number && n == 48 then 0
  else if t == TokenType.number && n < 256 then style_from_colour_number n
  else 0

/-- StyleFromSequence from LexTerminal.cxx: resolve the SGR parameter string
that follows a CSI introducer to a style (wxSTC_TERMINAL_DEFAULT = 0 on any
malformed or unsupported form). -/
def StyleFromSequence (s : List Char) : Nat :=
  let r0 := ReadNext s
  if r0.1 == TokenType.number && r0.2.1 ≤ 9 then
    let p1 := s.drop r0.2.2
    let r1 := ReadNext p1
    if r1.1 != TokenType.separator then 0
    else
      let p2 := p1.drop r1.2.2
      let r2 := ReadNext p2
      styleFromToken p2 r2.1 r2.2.1 r2.2.2
  else styleFromToken s r0.1 r0.2.1 r0.2.2

/-- The extended-foreground parameter shape of claim C4 after the leading 38
token, stated from the claim's words: Separator, a digit run reading 5,
Separator, a final digit run (the resolved number), then a non-digit
boundary.  Separator is ';' or ':' (IsSeparator). -/
def ExtFg38Shape (rest : List Char) : Prop :=
  ∃ s1 d5 s2 ds tail,
    IsSeparator s1 = true ∧ d5 ≠ [] ∧ (∀ c ∈ d5, Is0To9 c = true) ∧ parseNum d5 = 5 ∧
    IsSeparator s2 = true ∧ ds ≠ [] ∧ (∀ c ∈ ds, Is0To9 c = true) ∧
    (∀ c ∈ tail.take 1, Is0To9 c = false) ∧
    rest = s1 :: (d5 ++ s2 :: (ds ++ tail))

/-- Executable check for ExtFg38Shape, used to decide negated shape
hypotheses on concrete inputs. -/
def extFg38ShapeB : List Char → Bool
  | [] => false
  | s1 :: x1 =>
    IsSeparator s1 &&
    !(x1.takeWhile Is0To9).isEmpty && (parseNum (x1.takeWhile Is0To9) == 5) &&
    (match x1.dropWhile Is0To9 with
     | [] => false
     | s2 :: x2 => IsSeparator s2 && !(x2.takeWhile Is0To9).isEmpty)

/-- Containment test on a list that is already a C-string or string_view
slice (no further NUL truncation). -/
def hasSub (hay needle : List Char) : Bool := (strstrIdx hay needle).isSome

/-- ESC, the escape introducer. -/
def ESC : Char := '\x1b'

/-- The CSI introducer "\x1b[". -/
def CSI : List Char := [ESC, '[']

/-- findOtherEscape from LexTerminal.cxx: locate a charset-select short
escape in a literal-text segment.  Returns (pos, len) with len = ESC_LEN + 2
when the segment has an ESC character and one of "(B", "(0", "(U", "(K"
occurs anywhere after that ESC (the source checks the pair by find, not by
immediate adjacency). -/
def findOtherEscape (sv : List Char) : Option (Nat × Nat) :=
  match strstrIdx sv [ESC] with
  | none => none
  | some w =>
    let sub := sv.drop (w + 1)
    if hasSub sub (toL "(B") || hasSub sub (toL "(0") || hasSub sub (toL "(U") ||
        hasSub sub (toL "(K") then some (w, 3)
    else none

/-- The while(!prefix.empty()) loop of ColouriseErrorListLine that emits the
literal text before a CSI run: pr is the remaining prefix, fullLen the
original distance startSeq - linePortion (which the source, not the
remaining prefix length, adds to pos when no further short escape is found),
pos the running absolute position, st the running portion style.  Fuel
call sites pass the prefix length plus one; each iteration consumes at
least three characters. -/
def prefixScanLoop (fuel : Nat) (pr : List Char) (fullLen : Nat) (pos : Int) (st : Nat) :
    List (Int × Nat) :=
  match fuel with
  | 0 => []
  | fuel' + 1 =>
    if pr.isEmpty then []
    else
      match findOtherEscape pr with
      | some (oPos, oLen) =>
        (if oPos ≠ 0 then [((pos + oPos : Int), st)] else []) ++
          [((pos + oPos + oLen : Int), 24)] ++
          prefixScanLoop fuel' (pr.drop (oPos + oLen)) fullLen (pos + oPos + oLen) st
      | none => [((pos + fullLen : Int), st)]

/-- Index of the CSI terminator scan: first SequenceEnd character of p
(the scan from startSeq + CSI_LEN); none models running into the NUL at the
end of the line buffer. -/
def findSeqTermIdx (p : List Char) : Option Nat := p.findIdx? (fun c => SequenceEnd c)

/-- The while(startSeq = strstr(linePortion, CSI)) loop of
ColouriseErrorListLine: p is the remaining line portion (C-string view), sp
the position of the character before the portion, portionStyle the running
style, style the line's base classification, endPos the line's final
position.  Emits the ColourTo trace of the escape-sequence path.  Fuel call
sites pass the portion length plus one; each iteration consumes at least
three characters. -/
def portionLoop (fuel : Nat) (p : List Char) (sp : Int) (portionStyle style : Nat)
    (endPos : Int) : List (Int × Nat) :=
  match fuel with
  | 0 => [(endPos, portionStyle)]
  | fuel' + 1 =>
    match strstrIdx p CSI with
    | none => [(endPos, portionStyle)]
    | some s =>
      let preEvents := prefixScanLoop (s + 1) (p.take s) s sp portionStyle
      match findSeqTermIdx (p.drop (s + 2)) with
      | none => preEvents ++ [(endPos, 24)]
      | some k =>
        let termIdx := s + 2 + k
        let endSeqPosition := sp + termIdx + 1
        let term := getC p termIdx
        if term == 'm' then
          preEvents ++ [(endSeqPosition, 23)] ++
            portionLoop fuel' (p.drop (termIdx + 1)) endSeqPosition
              (StyleFromSequence (p.drop (s + 2))) style endPos
        else if term == 'K' then
          preEvents ++ [(endSeqPosition, 23)] ++
            portionLoop fuel' (p.drop (termIdx + 1)) endSeqPosition portionStyle style endPos
        else
          preEvents ++ [(endSeqPosition, 24)] ++
            portionLoop fuel' (p.drop (termIdx + 1)) endSeqPosition style style endPos

/-- ColouriseErrorListLine from LexTerminal.cxx as a ColourTo trace: the
line buffer, the absolute position of its last character, and the two
configuration booleans. -/
def ColouriseErrorListLine (l : List Char) (endPos : Int) (valueSeparate escapeSequences : Bool) :
    List (Int × Nat) :=
  let lengthLine := l.length
  let r := RecogniseErrorListLine l
  let style := r.1
  let startValue := r.2
  if escapeSequences && hasSub (cstrOf l) CSI then
    portionLoop ((cstrOf l).length + 1) (cstrOf l) (endPos - lengthLine) style style endPos
  else if valueSeparate && 0 ≤ startValue then
    [(endPos - ((lengthLine : Int) - startValue), style), (endPos, 21)]
  else [(endPos, style)]

/-- AtEOL from LexTerminal.cxx: end of line at position i of the document
(a '\r' checks the following character through SafeGetCharAt). -/
def AtEOL (doc : Int → Char) (i : Int) : Bool :=
  doc i == '\n' || (doc i == '\r' && doc (i + 1) != '\n')

/-- The character-accumulation loop of ColouriseTerminalDocInternal: n
characters remain, i is the current position, buf the line buffer.  At fuel
exhaustion (i = startPos + length) a non-empty buffer is the final line
without ending characters, coloured with endPos = startPos + length - 1. -/
def lexLoop (doc : Int → Char) (vs es : Bool) : Nat → Int → List Char → List (Int × Nat)
  | 0, i, buf => if buf.isEmpty then [] else ColouriseErrorListLine buf (i - 1) vs es
  | n + 1, i, buf =>
    let buf' := buf ++ [doc i]
    if AtEOL doc i then
      ColouriseErrorListLine buf' i vs es ++ lexLoop doc vs es n (i + 1) []
    else lexLoop doc vs es n (i + 1) buf'

/-- ColouriseTerminalDocInternal from LexTerminal.cxx as a ColourTo trace
over the half-open character range [startPos, startPos + length); the two
booleans are the lexer.terminal.value.separate and
lexer.terminal.escape.sequences properties. -/
def ColouriseTerminalDocInternal (doc : Int → Char) (startPos : Int) (length : Nat)
    (vs es : Bool) : List (Int × Nat) :=
  lexLoop doc vs es length startPos []

/-- Document built from a list of characters placed at positions 0..len-1;
elsewhere the accessor's default ' ' is read. -/
def docOf (l : List Char) : Int → Char :=
  fun i => if i < 0 then ' ' else l.getD i.toNat ' '

/-- Interpret a ColourTo trace as spans: a call at position p styles the
closed range from one past the previous call's position through p.  The
first argument is the position before the range start (startPos - 1). -/
def toSpans (prev : Int) : List (Int × Nat) → List (Int × Int × Nat)
  | [] => []
  | (p, st) :: rest => (prev + 1, p, st) :: toSpans p rest

/-- Control skeleton of portionLoop: does processing of this portion reach a
CSI run whose terminator scan runs into the NUL at the end of the buffer
(the case 0 early return)?  Pure function of the portion content, recursing
exactly as portionLoop does. -/
def hitsUnterminated (fuel : Nat) (p : List Char) : Bool :=
  match fuel with
  | 0 => false
  | fuel' + 1 =>
    match strstrIdx p CSI with
    | none => false
    | some s =>
      match findSeqTermIdx (p.drop (s + 2)) with
      | none => true
      | some k => hitsUnterminated fuel' (p.drop (s + 2 + k + 1))

/-- Static condition of claim C7 as worded: the line (C-string view)
contains a CSI occurrence whose terminator scan would reach the end of the
buffer before any byte in 0x40-0x7e. -/
def hasUntermRunStatic (l : List Char) : Bool :=
  (List.range l.length).any
    (fun i => startsList CSI (l.drop i) && (findSeqTermIdx (l.drop (i + 2))).isNone)

/-- Spec-side shape of a bash diagnostic after a ": line " occurrence: one
or more decimal digits immediately followed by a colon. -/
def BashShapeFrom (r : List Char) : Prop :=
  ∃ n, 1 ≤ n ∧ (∀ c ∈ r.take n, Is0To9 c = true) ∧ (r.drop n).head? = some ':'

/-- C1: claimed invariant — spans emitted for [startPos, startPos+length)
are contiguous, non-overlapping, cover exactly that range, with
non-decreasing boundaries.  The code violates this: on the 8-character
document "x ESC(By ESC[m" with escape interpretation on, the prefix loop of
ColouriseErrorListLine adds the full original prefix length to an already
advanced position after consuming a charset short escape, emitting the
boundary 8 (beyond the last range position 7) followed by the boundary 7 —
a decreasing, overlapping sequence.  This theorem evaluates the emitted
trace and exhibits the violation. -/
theorem claim_C1_boundary_violation :
    ColouriseTerminalDocInternal (docOf (toL "x\x1b(By\x1b[m")) 0 8 false true =
      [(0, 0), (3, 24), (8, 0), (7, 23), (7, 0)] ∧
    ¬ List.Pairwise (· ≤ ·)
      ((ColouriseTerminalDocInternal (docOf (toL "x\x1b(By\x1b[m")) 0 8 false true).map
        Prod.fst) ∧
    ((8 : Int), 0) ∈ ColouriseTerminalDocInternal (docOf (toL "x\x1b(By\x1b[m")) 0 8 false true :=
  ⟨by decide, by decide, by decide⟩

/-- C2: the seven literal classification examples.  Style ids: 12 =
DIFF_DELETION, 13 = DIFF_MESSAGE, 2 = GCC, 56 = GCC_WARNING, 1 = PYTHON,
3 = MS (the stMsDotNet form), 9 = CTAG. -/
theorem claim_C2_literal_examples :
    (RecogniseErrorListLine (toL "<removed line")).1 = 12 ∧
    (RecogniseErrorListLine (toL "+++ b/file.txt")).1 = 13 ∧
    (RecogniseErrorListLine (toL "main.c:12:5: error: x")).1 = 2 ∧
    (RecogniseErrorListLine (toL "main.c:12:5: warning: x")).1 = 56 ∧
    (RecogniseErrorListLine (toL "  File \"a.py\", line 3")).1 = 1 ∧
    (RecogniseErrorListLine (toL "foo.cs(10,2): error CS0001")).1 = 3 ∧
    (RecogniseErrorListLine (toL "tag\tfile.c\t/^int main/")).1 = 9 := by
  decide

/-- C3: the escape round trip.  Processing the 19-character document
"ESC[31m error ESC[0m : bad" with escape interpretation on emits, in order,
ColourTo boundaries 4 (ESCSEQ = 23, over "ESC[31m"), 9 (ES_RED = 41, over
"error"), 13 (ESCSEQ = 23, over "ESC[0m") and 18 (DEFAULT = 0, over
": bad"); read as spans these are exactly the four claimed spans. -/
theorem claim_C3_escape_round_trip :
    ColouriseTerminalDocInternal (docOf (toL "\x1b[31merror\x1b[0m: bad")) 0 19 false true =
      [(4, 23), (9, 41), (13, 23), (18, 0)] ∧
    toSpans (-1)
      (ColouriseTerminalDocInternal (docOf (toL "\x1b[31merror\x1b[0m: bad")) 0 19 false true) =
      [(0, 4, 23), (5, 9, 41), (10, 13, 23), (14, 18, 0)] :=
  ⟨by decide, by decide⟩

/-- C4 counterexample: the claim says a final number outside [0,255] in the
38;5;n form returns Default (0); but StyleFromSequence casts the parsed
number to uint8_t without a range check, so "38;5;300" resolves colour index
300 mod 256 = 44 (palette entry 0x00d7d7, nearest base colour cyan) and
returns ES_CYAN = 46, not Default. -/
theorem claim_C4_counterexample :
    StyleFromSequence (toL "38;5;300m") = 46 ∧ StyleFromSequence (toL "38;5;300m") ≠ 0 := by
  decide

/-- C5 counterexample: the claim reads the Bash rule as existential over all
occurrences of ": line ", but IsBashDiagnostic checks only the first
occurrence.  On "a: line x: line 5:b" no earlier rule matches, the second
occurrence (index 9) is followed by the digit '5' and then ':', yet the
classifier returns DEFAULT (0), not BASH (26). -/
theorem claim_C5_counterexample :
    earlyRules (toL "a: line x: line 5:b") = none ∧
    startsList bashMark ((toL "a: line x: line 5:b").drop 9) = true ∧
    BashShapeFrom ((toL "a: line x: line 5:b").drop 16) ∧
    (RecogniseErrorListLine (toL "a: line x: line 5:b")).1 = 0 :=
  ⟨by decide, by decide, ⟨1, by decide, by decide, by decide⟩, by decide⟩

/-- C7 counterexample: the line "ESC[ ESC[1" contains a CSI run (at index 2)
whose terminator scan reaches the end of the buffer, so by the claim the
emitter should style to the end of the range as ESCSEQ_UNKNOWN (24) and emit
nothing further.  But the scan of the first run consumes the second run's
'[' as its terminator, no unterminated scan is ever performed, and the last
emitted span has the base style 0, not 24. -/
theorem claim_C7_counterexample :
    hasUntermRunStatic (cstrOf (toL "\x1b[\x1b[1")) = true ∧
    ColouriseErrorListLine (toL "\x1b[\x1b[1") 4 false true = [(3, 24), (4, 0)] ∧
    (ColouriseErrorListLine (toL "\x1b[\x1b[1") 4 false true).getLast? ≠
      some ((4 : Int), 24) :=
  ⟨by decide, by decide, by decide⟩

/-- C8: the claim (and the source comment, which reads found ESC(<B|0|U|K>)
require the introducer to be immediately followed by one of the four pairs,
and the emitted ESCSEQ_UNKNOWN span to cover exactly the matched short form.
findOtherEscape instead accepts the pair anywhere after the ESC and always
takes the three characters at the ESC: on "ESC Z(B" it reports a short
escape at position 0 of length 3, and the emitter styles ESC,'Z','(' as
ESCSEQ_UNKNOWN (the boundary-3 call below) although the introducer is
followed by 'Z'. -/
theorem claim_C8_short_escape_bug :
    findOtherEscape (toL "\x1bZ(B") = some (0, 3) ∧
    getC (toL "\x1bZ(B") 1 = 'Z' ∧
    ColouriseErrorListLine (toL "\x1bZ(B\x1b[m") 6 false true =
      [(2, 24), (6, 0), (6, 23), (6, 0)] :=
  ⟨by decide, by decide, by decide⟩

theorem redmean_bound (a b c d e f : Int)
    (ha0 : 0 ≤ a) (ha : a ≤ 255) (hb0 : 0 ≤ b) (hb : b ≤ 255)
    (hc0 : 0 ≤ c) (hc : c ≤ 255) (hd0 : 0 ≤ d) (hd : d ≤ 255)
    (he0 : 0 ≤ e) (he : e ≤ 255) (hf0 : 0 ≤ f) (hf : f ≤ 255) :
    (1024 + (a + b)) * (a - b) * (a - b) + 2048 * (c - d) * (c - d) +
      (1534 - (a + b)) * (e - f) * (e - f) < 4294967295 := by
  have h1 : (a - b) * (a - b) ≤ 65025 := by nlinarith
  have h2 : (c - d) * (c - d) ≤ 65025 := by nlinarith
  have h3 : (e - f) * (e - f) ≤ 65025 := by nlinarith
  have p1 : 0 ≤ (a - b) * (a - b) := mul_self_nonneg _
  have p3 : 0 ≤ (e - f) * (e - f) := mul_self_nonneg _
  have q1 : (1024 + (a + b)) * ((a - b) * (a - b)) ≤ 1534 * 65025 := by nlinarith
  have q3 : (1534 - (a + b)) * ((e - f) * (e - f)) ≤ 1534 * 65025 := by nlinarith
  have q2 : 2048 * ((c - d) * (c - d)) ≤ 2048 * 65025 := by nlinarith
  nlinarith [q1, q2, q3]

theorem componentInt_le (n : Nat) :
    (0 : Int) ≤ ((n % 256 : Nat) : Int) ∧ ((n % 256 : Nat) : Int) ≤ 255 := by
  constructor
  · exact Int.ofNat_nonneg _
  · have : n % 256 < 256 := Nat.mod_lt _ (by norm_num)
    omega

theorem distance_lt_top (x y : Nat) : distance x y < 4294967295 :=
  redmean_bound (R x) (R y) (G x) (G y) (B x) (B y)
    (componentInt_le _).1 (componentInt_le _).2 (componentInt_le _).1 (componentInt_le _).2
    (componentInt_le _).1 (componentInt_le _).2 (componentInt_le _).1 (componentInt_le _).2
    (componentInt_le _).1 (componentInt_le _).2 (componentInt_le _).1 (componentInt_le _).2

theorem nearestAux_spec (e : Nat) (is : List Nat) :
    ∀ (d0 : Int) (i0 : Nat),
      (nearestAux e is (d0, i0)).1 ≤ d0 ∧
      (∀ j ∈ is, (nearestAux e is (d0, i0)).1 ≤ distance e (baseColour j)) ∧
      (nearestAux e is (d0, i0) = (d0, i0) ∨
        ∃ as bs, is = as ++ (nearestAux e is (d0, i0)).2 :: bs ∧
          (nearestAux e is (d0, i0)).1 =
            distance e (baseColour (nearestAux e is (d0, i0)).2) ∧
          (nearestAux e is (d0, i0)).1 < d0 ∧
          ∀ j ∈ as, (nearestAux e is (d0, i0)).1 < distance e (baseColour j)) := by
  induction is with
  | nil => intro d0 i0; simp [nearestAux]
  | cons i rest ih =>
    intro d0 i0
    by_cases h : distance e (baseColour i) < d0
    · have hstep : nearestAux e (i :: rest) (d0, i0) =
          nearestAux e rest (distance e (baseColour i), i) := by
        rw [nearestAux]
        rw [if_pos h]
      obtain ⟨h1, h2, h3⟩ := ih (distance e (baseColour i)) i
      rw [hstep]
      refine ⟨le_trans h1 (le_of_lt h), ?_, ?_⟩
      · intro j hj
        rcases List.mem_cons.mp hj with rfl | hj'
        · exact h1
        · exact h2 j hj'
      · rcases h3 with heq | ⟨as, bs, hsplit, hdist, hlt, hall⟩
        · right
          refine ⟨[], rest, ?_, ?_, ?_, by simp⟩
          · rw [heq]; rfl
          · rw [heq]
          · rw [heq]; exact h
        · right
          refine ⟨i :: as, bs, ?_, hdist, lt_trans hlt h, ?_⟩
          · exact congrArg (List.cons i) hsplit
          · intro j hj
            rcases List.mem_cons.mp hj with rfl | hj'
            · exact hlt
            · exact hall j hj'
    · have hstep : nearestAux e (i :: rest) (d0, i0) = nearestAux e rest (d0, i0) := by
        rw [nearestAux]
        rw [if_neg h]
      obtain ⟨h1, h2, h3⟩ := ih d0 i0
      rw [hstep]
      refine ⟨h1, ?_, ?_⟩
      · intro j hj
        rcases List.mem_cons.mp hj with rfl | hj'
        · exact le_trans h1 (not_lt.mp h)
        · exact h2 j hj'
      · rcases h3 with heq | ⟨as, bs, hsplit, hdist, hlt, hall⟩
        · left; exact heq
        · right
          refine ⟨i :: as, bs, ?_, hdist, hlt, ?_⟩
          · exact congrArg (List.cons i) hsplit
          · intro j hj
            rcases List.mem_cons.mp hj with rfl | hj'
            · exact lt_of_lt_of_le hlt (not_lt.mp h)
            · exact hall j hj'

theorem nearest_index_spec (e : Nat) :
    nearest_index e < 16 ∧
    (∀ j, j < 16 → distance e (baseColour (nearest_index e)) ≤ distance e (baseColour j)) ∧
    (∀ j, j < nearest_index e →
      distance e (baseColour (nearest_index e)) < distance e (baseColour j)) := by
  obtain ⟨h1, h2, h3⟩ := nearestAux_spec e (List.range 16) 4294967295 0
  rcases h3 with heq | ⟨as, bs, hsplit, hdist, hlt, hall⟩
  · exfalso
    have h0 : (nearestAux e (List.range 16) (4294967295, 0)).1 ≤ distance e (baseColour 0) :=
      h2 0 (List.mem_range.mpr (by norm_num))
    have htop := distance_lt_top e (baseColour 0)
    rw [heq] at h0
    exact absurd (lt_of_le_of_lt h0 htop) (lt_irrefl _)
  · have hlen : as.length < 16 := by
      have hc := congrArg List.length hsplit
      simp only [List.length_range, List.length_append, List.length_cons] at hc
      omega
    have hr2 : (nearestAux e (List.range 16) (4294967295, 0)).2 = as.length := by
      have hget : (List.range 16)[as.length]? =
          some (nearestAux e (List.range 16) (4294967295, 0)).2 := by
        nth_rewrite 1 [hsplit]
        rw [List.getElem?_append_right (le_refl _)]
        simp
      rw [List.getElem?_range hlen] at hget
      exact (Option.some_inj.mp hget).symm
    have hmemas : ∀ j, j < as.length → j ∈ as := by
      intro j hj
      have h4 : (List.range 16)[j]? = some j := List.getElem?_range (lt_trans hj hlen)
      rw [hsplit, List.getElem?_append_left hj] at h4
      obtain ⟨hj', hval⟩ := List.getElem?_eq_some.mp h4
      exact hval ▸ List.getElem_mem hj'
    have hni : nearest_index e = as.length := hr2
    refine ⟨hni ▸ hlen, ?_, ?_⟩
    · intro j hj
      have hle := h2 j (List.mem_range.mpr hj)
      rw [hdist] at hle
      exact hle
    · intro j hj
      have hj' : j < as.length := by rw [hni] at hj; exact hj
      have hlt' := hall j (hmemas j hj')
      rw [hdist] at hlt'
      exact hlt'

/-- C6: the nearest-base-colour search is reflexive on the 16 palette
entries (each exact base RGB value maps back to its own index, hence its own
category), and in general the chosen index attains the minimum distance with
ties resolved to the lowest palette index (every strictly smaller index is
at strictly greater distance). -/
theorem claim_C6_nearest_base_colour :
    (∀ k, k < 16 → nearest_index (baseColour k) = k ∧
      styleOfIndex (nearest_index (baseColour k)) = styleOfIndex k) ∧
    (∀ e, nearest_index e < 16 ∧
      (∀ j, j < 16 → distance e (baseColour (nearest_index e)) ≤ distance e (baseColour j)) ∧
      (∀ j, j < nearest_index e →
        distance e (baseColour (nearest_index e)) < distance e (baseColour j))) :=
  ⟨by decide, nearest_index_spec⟩

/-- C6 witness: the theorem instantiated at palette entry 1 (0xcd0000) and
at the arbitrary colour 0x123456 = 1193046 with comparison index 7. -/
theorem claim_C6_witness :
    nearest_index (baseColour 1) = 1 ∧
    nearest_index 1193046 < 16 ∧
    distance 1193046 (baseColour (nearest_index 1193046)) ≤ distance 1193046 (baseColour 7) :=
  ⟨(claim_C6_nearest_base_colour.1 1 (by norm_num)).1,
   (claim_C6_nearest_base_colour.2 1193046).1,
   (claim_C6_nearest_base_colour.2 1193046).2.1 7 (by norm_num)⟩

theorem styleOfIndex_range : ∀ i, i < 16 → 40 ≤ styleOfIndex i ∧ styleOfIndex i ≤ 55 := by
  decide

theorem style_from_colour_number_range (n : Nat) :
    40 ≤ style_from_colour_number n ∧ style_from_colour_number n ≤ 55 := by
  unfold style_from_colour_number
  split
  · exact styleOfIndex_range _ (by omega)
  · split
    · exact styleOfIndex_range _ (by omega)
    · exact styleOfIndex_range _ (nearest_index_spec _).1

/-- C10: for every SGR parameter string, StyleFromSequence returns either
the DEFAULT category 0 or one of the sixteen ANSI-colour categories
40 through 55; in particular the running colour adopted after an SGR m
terminator always comes from this closed set. -/
theorem claim_C10_sgr_codomain (s : List Char) :
    StyleFromSequence s = 0 ∨ (40 ≤ StyleFromSequence s ∧ StyleFromSequence s ≤ 55) := by
  have hf : ∀ p t n c, styleFromToken p t n c = 0 ∨
      (40 ≤ styleFromToken p t n c ∧ styleFromToken p t n c ≤ 55) := by
    intro p t n c
    unfold styleFromToken
    dsimp only
    repeat' split
    all_goals first
      | exact Or.inl rfl
      | exact Or.inr (style_from_colour_number_range _)
  unfold StyleFromSequence
  dsimp only
  repeat' split
  all_goals first
    | exact Or.inl rfl
    | exact hf _ _ _ _

theorem digit_not_seqEnd {c : Char} (h : Is0To9 c = true) :
    SequenceEnd c = false ∧ IsSeparator c = false := by
  unfold Is0To9 at h
  rw [Bool.and_eq_true, decide_eq_true_iff, decide_eq_true_iff] at h
  refine ⟨Bool.eq_false_iff.mpr ?_, Bool.eq_false_iff.mpr ?_⟩
  · intro hse
    unfold SequenceEnd at hse
    simp only [Bool.or_eq_true, Bool.and_eq_true, beq_iff_eq, decide_eq_true_iff] at hse
    omega
  · intro hsep
    unfold IsSeparator at hsep
    simp only [Bool.or_eq_true, beq_iff_eq] at hsep
    rcases hsep with rfl | rfl
    · exact absurd h (by decide)
    · exact absurd h (by decide)

theorem takeWhile_digits_append (ds tail : List Char)
    (hds : ∀ c ∈ ds, Is0To9 c = true) (hnd : ∀ c ∈ tail.take 1, Is0To9 c = false) :
    (ds ++ tail).takeWhile Is0To9 = ds := by
  induction ds with
  | nil =>
    cases tail with
    | nil => rfl
    | cons c rest =>
      have hc := hnd c (by simp)
      simp [List.takeWhile_cons, hc]
  | cons c ds' ih =>
    have hc := hds c (by simp)
    have ih' := ih (fun x hx => hds x (by simp [hx]))
    simp [List.takeWhile_cons, hc, ih']

theorem ReadNext_digits (ds tail : List Char) (hne : ds ≠ [])
    (hds : ∀ c ∈ ds, Is0To9 c = true) (hnd : ∀ c ∈ tail.take 1, Is0To9 c = false) :
    ReadNext (ds ++ tail) = (TokenType.number, parseNum ds, ds.length) := by
  cases ds with
  | nil => exact absurd rfl hne
  | cons c ds' =>
    have hc := hds c (by simp)
    obtain ⟨hse, _⟩ := digit_not_seqEnd hc
    have htw := takeWhile_digits_append (c :: ds') tail hds hnd
    show ReadNext (c :: (ds' ++ tail)) = _
    rw [ReadNext]
    rw [hse]
    simp only [Bool.false_eq_true, if_false, hc, if_true]
    rw [show c :: (ds' ++ tail) = (c :: ds') ++ tail from rfl, htw]

theorem sep_facts {c : Char} (h : IsSeparator c = true) :
    SequenceEnd c = false ∧ Is0To9 c = false := by
  unfold IsSeparator at h
  simp only [Bool.or_eq_true, beq_iff_eq] at h
  rcases h with rfl | rfl
  · exact ⟨by decide, by decide⟩
  · exact ⟨by decide, by decide⟩

theorem ReadNext_sep (c : Char) (x : List Char) (h : IsSeparator c = true) :
    ReadNext (c :: x) = (TokenType.separator, 0, 1) := by
  obtain ⟨h1, h2⟩ := sep_facts h
  rw [ReadNext, h1]
  simp only [Bool.false_eq_true, if_false, h2, h, if_true]

theorem ReadNext_digit_head (c : Char) (x : List Char) (h : Is0To9 c = true) :
    ReadNext (c :: x) = (TokenType.number, parseNum ((c :: x).takeWhile Is0To9),
      ((c :: x).takeWhile Is0To9).length) := by
  obtain ⟨hse, _⟩ := digit_not_seqEnd h
  rw [ReadNext, hse]
  simp only [Bool.false_eq_true, if_false, h, if_true]

theorem ReadNext_fst_sep_iff (s : List Char) :
    (ReadNext s).1 = TokenType.separator ↔ ∃ c x, s = c :: x ∧ IsSeparator c = true := by
  cases s with
  | nil => simp [ReadNext]
  | cons c x =>
    constructor
    · intro h
      by_cases hse : SequenceEnd c = true
      · simp [ReadNext, hse] at h
      · by_cases hdig : Is0To9 c = true
        · simp [ReadNext, Bool.eq_false_iff.mpr hse, hdig] at h
        · by_cases hsep : IsSeparator c = true
          · exact ⟨c, x, rfl, hsep⟩
          · simp [ReadNext, Bool.eq_false_iff.mpr hse, Bool.eq_false_iff.mpr hdig,
              Bool.eq_false_iff.mpr hsep] at h
    · rintro ⟨c', x', heq, hc'⟩
      injection heq with h1 h2
      subst h1
      subst h2
      rw [ReadNext_sep c x hc']

theorem ReadNext_fst_num_iff (s : List Char) :
    (ReadNext s).1 = TokenType.number ↔ ∃ c x, s = c :: x ∧ Is0To9 c = true := by
  cases s with
  | nil => simp [ReadNext]
  | cons c x =>
    constructor
    · intro h
      by_cases hse : SequenceEnd c = true
      · simp [ReadNext, hse] at h
      · by_cases hdig : Is0To9 c = true
        · exact ⟨c, x, rfl, hdig⟩
        · by_cases hsep : IsSeparator c = true
          · simp [ReadNext, Bool.eq_false_iff.mpr hse, Bool.eq_false_iff.mpr hdig, hsep] at h
          · simp [ReadNext, Bool.eq_false_iff.mpr hse, Bool.eq_false_iff.mpr hdig,
              Bool.eq_false_iff.mpr hsep] at h
    · rintro ⟨c', x', heq, hc'⟩
      injection heq with h1 h2
      subst h1
      subst h2
      rw [ReadNext_digit_head c x hc']

theorem drop_length_takeWhile (p : Char → Bool) :
    ∀ l : List Char, l.drop (l.takeWhile p).length = l.dropWhile p := by
  intro l
  induction l with
  | nil => rfl
  | cons c t ih =>
    by_cases hp : p c = true
    · simp [List.takeWhile_cons, List.dropWhile_cons, hp, ih]
    · simp [List.takeWhile_cons, List.dropWhile_cons, hp]

theorem dropWhile_digits_append (ds tail : List Char)
    (hds : ∀ c ∈ ds, Is0To9 c = true) (hnd : ∀ c ∈ tail.take 1, Is0To9 c = false) :
    (ds ++ tail).dropWhile Is0To9 = tail := by
  induction ds with
  | nil =>
    cases tail with
    | nil => rfl
    | cons c t =>
      have hc := hnd c (by simp)
      simp [List.dropWhile_cons, hc]
  | cons c ds' ih =>
    have hc := hds c (by simp)
    have ih' := ih (fun x hx => hds x (by simp [hx]))
    simp [List.dropWhile_cons, hc, ih']

theorem headNotDigit_dropWhile (l : List Char) :
    ∀ c ∈ (l.dropWhile Is0To9).take 1, Is0To9 c = false := by
  induction l with
  | nil => simp
  | cons a t ih =>
    by_cases hp : Is0To9 a = true
    · simpa [List.dropWhile_cons, hp] using ih
    · intro c hc
      simp [List.dropWhile_cons, Bool.eq_false_iff.mpr hp] at hc
      subst hc
      exact Bool.eq_false_iff.mpr hp

theorem style38_branch (rest : List Char) (hnd : ∀ c ∈ rest.take 1, Is0To9 c = false) :
    StyleFromSequence ('3' :: '8' :: rest) =
      styleFromToken ('3' :: '8' :: rest) TokenType.number 38 2 := by
  have h38 : ReadNext ('3' :: '8' :: rest) = (TokenType.number, 38, 2) := by
    have h := ReadNext_digits ['3', '8'] rest (by simp) (by decide) hnd
    simpa using h
  unfold StyleFromSequence
  dsimp only
  rw [h38]
  simp

theorem style38_resolve (s1 : Char) (d5 : List Char) (s2 : Char) (ds tail : List Char)
    (hs1 : IsSeparator s1 = true)
    (hd5ne : d5 ≠ []) (hd5dig : ∀ c ∈ d5, Is0To9 c = true) (hd5val : parseNum d5 = 5)
    (hs2 : IsSeparator s2 = true)
    (hdsne : ds ≠ []) (hdsdig : ∀ c ∈ ds, Is0To9 c = true)
    (hndt : ∀ c ∈ tail.take 1, Is0To9 c = false) :
    StyleFromSequence ('3' :: '8' :: s1 :: (d5 ++ s2 :: (ds ++ tail))) =
      style_from_colour_number (parseNum ds % 256) := by
  have hnd1 : ∀ c ∈ (s1 :: (d5 ++ s2 :: (ds ++ tail))).take 1, Is0To9 c = false := by
    intro c hc
    simp at hc
    subst hc
    exact (sep_facts hs1).2
  have hnd2 : ∀ c ∈ (s2 :: (ds ++ tail)).take 1, Is0To9 c = false := by
    intro c hc
    simp at hc
    subst hc
    exact (sep_facts hs2).2
  rw [style38_branch _ hnd1]
  unfold styleFromToken
  dsimp only
  rw [show List.drop 2 ('3' :: '8' :: s1 :: (d5 ++ s2 :: (ds ++ tail))) =
    s1 :: (d5 ++ s2 :: (ds ++ tail)) from rfl]
  rw [ReadNext_sep s1 _ hs1]
  dsimp only
  rw [show List.drop 1 (s1 :: (d5 ++ s2 :: (ds ++ tail))) = d5 ++ s2 :: (ds ++ tail) from rfl]
  rw [ReadNext_digits d5 (s2 :: (ds ++ tail)) hd5ne hd5dig hnd2]
  dsimp only
  rw [hd5val]
  rw [if_neg (by decide : ¬ ((TokenType.number != TokenType.number) = true))]
  rw [if_neg (by decide : ¬ (((5 : Nat) != 5) = true))]
  rw [List.drop_left]
  rw [ReadNext_sep s2 _ hs2]
  dsimp only
  rw [show List.drop 1 (s2 :: (ds ++ tail)) = ds ++ tail from rfl]
  rw [ReadNext_digits ds tail hdsne hdsdig hndt]
  simp

theorem extFg38ShapeB_of_shape (rest : List Char) (h : ExtFg38Shape rest) :
    extFg38ShapeB rest = true := by
  obtain ⟨s1, d5, s2, ds, tail, hs1, hd5ne, hd5dig, hd5val, hs2, hdsne, hdsdig, hndt, rfl⟩ := h
  have hs2nd : ∀ c ∈ (s2 :: (ds ++ tail)).take 1, Is0To9 c = false := by
    intro c hc
    simp at hc
    subst hc
    exact (sep_facts hs2).2
  have htk : (d5 ++ s2 :: (ds ++ tail)).takeWhile Is0To9 = d5 :=
    takeWhile_digits_append d5 _ hd5dig hs2nd
  have hdp : (d5 ++ s2 :: (ds ++ tail)).dropWhile Is0To9 = s2 :: (ds ++ tail) :=
    dropWhile_digits_append d5 _ hd5dig hs2nd
  have htk2 : (ds ++ tail).takeWhile Is0To9 = ds :=
    takeWhile_digits_append ds tail hdsdig hndt
  rw [extFg38ShapeB]
  rw [htk, hdp]
  dsimp only
  rw [htk2]
  simp [hs1, hs2, hd5val, hd5ne, hdsne, List.isEmpty_iff]

theorem not_shape_of_checker (rest : List Char) (h : extFg38ShapeB rest = false) :
    ¬ ExtFg38Shape rest := by
  intro hs
  rw [extFg38ShapeB_of_shape rest hs] at h
  exact absurd h (by decide)

theorem parseNum_foldl_ge : ∀ (xs : List Char) (a : Nat),
    a ≤ xs.foldl (fun a c => 10 * a + (c.toNat - 48)) a := by
  intro xs
  induction xs with
  | nil => intro a; exact Nat.le_refl a
  | cons c xs ih =>
    intro a
    calc a ≤ 10 * a + (c.toNat - 48) := by omega
    _ ≤ _ := ih _

theorem parseNum_38 (xs : List Char) : 38 ≤ parseNum ('3' :: '8' :: xs) := by
  have h : parseNum ('3' :: '8' :: xs) =
      xs.foldl (fun a c => 10 * a + (c.toNat - 48)) 38 := rfl
  rw [h]
  exact parseNum_foldl_ge xs 38

theorem takeWhile_38 (rest : List Char) :
    ('3' :: '8' :: rest).takeWhile Is0To9 = '3' :: '8' :: rest.takeWhile Is0To9 := by
  rw [List.takeWhile_cons_of_pos (by decide), List.takeWhile_cons_of_pos (by decide)]

theorem style38_core (rest : List Char) :
    StyleFromSequence ('3' :: '8' :: rest) =
      styleFromToken ('3' :: '8' :: rest) (ReadNext ('3' :: '8' :: rest)).1
        (ReadNext ('3' :: '8' :: rest)).2.1 (ReadNext ('3' :: '8' :: rest)).2.2 := by
  have hr : ReadNext ('3' :: '8' :: rest) =
      (TokenType.number, parseNum (('3' :: '8' :: rest).takeWhile Is0To9),
        (('3' :: '8' :: rest).takeWhile Is0To9).length) :=
    ReadNext_digit_head '3' ('8' :: rest) (by decide)
  have h38 : 38 ≤ parseNum (('3' :: '8' :: rest).takeWhile Is0To9) := by
    rw [takeWhile_38]
    exact parseNum_38 _
  unfold StyleFromSequence
  rw [hr]
  dsimp only
  rw [if_neg (by simp; omega)]

theorem parseNum_single (a : Char) : parseNum [a] = a.toNat - 48 := by
  simp [parseNum]

theorem style38_attr_core (a sep : Char) (rest : List Char)
    (ha : Is0To9 a = true) (hsep : IsSeparator sep = true) :
    StyleFromSequence (a :: sep :: '3' :: '8' :: rest) =
      styleFromToken ('3' :: '8' :: rest) (ReadNext ('3' :: '8' :: rest)).1
        (ReadNext ('3' :: '8' :: rest)).2.1 (ReadNext ('3' :: '8' :: rest)).2.2 := by
  have hsnd : Is0To9 sep = false := (sep_facts hsep).2
  have htk : (a :: sep :: '3' :: '8' :: rest).takeWhile Is0To9 = [a] := by
    rw [List.takeWhile_cons_of_pos ha, List.takeWhile_cons_of_neg (by simp [hsnd])]
  have hr : ReadNext (a :: sep :: '3' :: '8' :: rest) = (TokenType.number, a.toNat - 48, 1) := by
    rw [ReadNext_digit_head a _ ha, htk, parseNum_single]
    rfl
  have hle : a.toNat - 48 ≤ 9 := by
    simp [Is0To9] at ha
    omega
  unfold StyleFromSequence
  rw [hr]
  dsimp only
  rw [if_pos (by simp [hle])]
  rw [show List.drop 1 (a :: sep :: '3' :: '8' :: rest) = sep :: '3' :: '8' :: rest from rfl]
  rw [ReadNext_sep sep _ hsep]
  rw [if_neg (by simp)]
  dsimp only
  rw [show List.drop 1 (sep :: '3' :: '8' :: rest) = '3' :: '8' :: rest from rfl]

theorem attr_transparent (a sep : Char) (rest : List Char)
    (ha : Is0To9 a = true) (hsep : IsSeparator sep = true) :
    StyleFromSequence (a :: sep :: '3' :: '8' :: rest) =
      StyleFromSequence ('3' :: '8' :: rest) := by
  rw [style38_attr_core a sep rest ha hsep, style38_core]

theorem notNumber_default (s : List Char) (h : (ReadNext s).1 ≠ TokenType.number) :
    StyleFromSequence s = 0 := by
  unfold StyleFromSequence
  dsimp only
  rw [if_neg (by simp [h])]
  unfold styleFromToken
  simp [h]

theorem bigNumber_default (ds tail : List Char) (hne : ds ≠ [])
    (hds : ∀ c ∈ ds, Is0To9 c = true) (hbig : 255 < parseNum ds)
    (hnd : ∀ c ∈ tail.take 1, Is0To9 c = false) :
    StyleFromSequence (ds ++ tail) = 0 := by
  have hr : ReadNext (ds ++ tail) = (TokenType.number, parseNum ds, ds.length) :=
    ReadNext_digits ds tail hne hds hnd
  unfold StyleFromSequence
  rw [hr]
  dsimp only
  rw [if_neg (by simp; omega)]
  unfold styleFromToken
  rw [if_neg (by simp; omega)]
  rw [if_neg (by simp; omega)]
  rw [if_neg (by simp; omega)]

theorem style48 (rest : List Char) (hnd : ∀ c ∈ rest.take 1, Is0To9 c = false) :
    StyleFromSequence ('4' :: '8' :: rest) = 0 := by
  have h48 : ReadNext ('4' :: '8' :: rest) = (TokenType.number, 48, 2) := by
    have h := ReadNext_digits ['4', '8'] rest (by simp) (by decide) hnd
    simpa using h
  unfold StyleFromSequence
  dsimp only
  rw [h48]
  rfl

theorem style38_shape_of_nonzero (rest : List Char)
    (hnd : ∀ c ∈ rest.take 1, Is0To9 c = false)
    (h : StyleFromSequence ('3' :: '8' :: rest) ≠ 0) : ExtFg38Shape rest := by
  rw [style38_branch rest hnd] at h
  unfold styleFromToken at h
  rw [if_pos (by decide)] at h
  dsimp only at h
  rw [show List.drop 2 ('3' :: '8' :: rest) = rest from rfl] at h
  by_cases h1 : (ReadNext rest).1 = TokenType.separator
  case neg =>
    rw [if_pos (by simp [h1])] at h
    exact absurd rfl h
  obtain ⟨s1, x1, rfl, hs1⟩ := (ReadNext_fst_sep_iff rest).mp h1
  rw [ReadNext_sep s1 x1 hs1] at h
  rw [if_neg (by simp)] at h
  dsimp only at h
  rw [show List.drop 1 (s1 :: x1) = x1 from rfl] at h
  by_cases h2 : (ReadNext x1).1 = TokenType.number
  case neg =>
    rw [if_pos (by simp [h2])] at h
    exact absurd rfl h
  obtain ⟨c, x, rfl, hc⟩ := (ReadNext_fst_num_iff x1).mp h2
  rw [ReadNext_digit_head c x hc] at h
  rw [if_neg (by simp)] at h
  by_cases h25 : parseNum ((c :: x).takeWhile Is0To9) = 5
  case neg =>
    rw [if_pos (by simp [h25])] at h
    exact absurd rfl h
  rw [if_neg (by simp [h25])] at h
  dsimp only at h
  rw [drop_length_takeWhile] at h
  by_cases h3 : (ReadNext ((c :: x).dropWhile Is0To9)).1 = TokenType.separator
  case neg =>
    rw [if_pos (by simp [h3])] at h
    exact absurd rfl h
  obtain ⟨s2, x2, heq2, hs2⟩ := (ReadNext_fst_sep_iff _).mp h3
  rw [heq2, ReadNext_sep s2 x2 hs2] at h
  rw [if_neg (by simp)] at h
  dsimp only at h
  rw [show List.drop 1 (s2 :: x2) = x2 from rfl] at h
  by_cases h4 : (ReadNext x2).1 = TokenType.number
  case neg =>
    rw [if_pos (by simp [h4])] at h
    exact absurd rfl h
  obtain ⟨c4, x4, heq4, hc4⟩ := (ReadNext_fst_num_iff x2).mp h4
  refine ⟨s1, (c :: x).takeWhile Is0To9, s2, x2.takeWhile Is0To9, x2.dropWhile Is0To9,
    hs1, ?_, ?_, h25, hs2, ?_, ?_, headNotDigit_dropWhile x2, ?_⟩
  · rw [List.takeWhile_cons_of_pos hc]
    exact List.cons_ne_nil _ _
  · intro c' hc'
    exact List.mem_takeWhile_imp hc'
  · rw [heq4, List.takeWhile_cons_of_pos hc4]
    exact List.cons_ne_nil _ _
  · intro c' hc'
    exact List.mem_takeWhile_imp hc'
  · rw [List.takeWhile_append_dropWhile]
    rw [← heq2]
    rw [List.takeWhile_append_dropWhile]

theorem style38_default (rest : List Char)
    (hnd : ∀ c ∈ rest.take 1, Is0To9 c = false)
    (hns : ¬ ExtFg38Shape rest) : StyleFromSequence ('3' :: '8' :: rest) = 0 := by
  by_contra h
  exact hns (style38_shape_of_nonzero rest hnd h)

/-- C4 (amended): with Separator meaning ';' or ':', (1) every string of the
extended-foreground shape 38, Separator, 5, Separator, n resolves through
style_from_colour_number at the final number n reduced modulo 256 -- there is
no range check, so a final number outside [0,255] is truncated, not sent to
Default; (2) every other 38-prefixed shape -- including the true-24-bit
38;2;r;g;b form and malformed forms -- returns Default (0); (3) the
background 48 form returns Default; (4) a leading number above 255 returns
Default; (5) a string whose first token is not a number returns Default;
(6) one attribute digit plus a separator before the 38 form is transparent. -/
theorem claim_C4_amended :
    (∀ (s1 : Char) (d5 : List Char) (s2 : Char) (ds tail : List Char),
      IsSeparator s1 = true → d5 ≠ [] → (∀ c ∈ d5, Is0To9 c = true) → parseNum d5 = 5 →
      IsSeparator s2 = true → ds ≠ [] → (∀ c ∈ ds, Is0To9 c = true) →
      (∀ c ∈ tail.take 1, Is0To9 c = false) →
      StyleFromSequence ('3' :: '8' :: s1 :: (d5 ++ s2 :: (ds ++ tail))) =
        style_from_colour_number (parseNum ds % 256)) ∧
    (∀ rest : List Char, (∀ c ∈ rest.take 1, Is0To9 c = false) → ¬ ExtFg38Shape rest →
      StyleFromSequence ('3' :: '8' :: rest) = 0) ∧
    (∀ rest : List Char, (∀ c ∈ rest.take 1, Is0To9 c = false) →
      StyleFromSequence ('4' :: '8' :: rest) = 0) ∧
    (∀ ds tail : List Char, ds ≠ [] → (∀ c ∈ ds, Is0To9 c = true) → 255 < parseNum ds →
      (∀ c ∈ tail.take 1, Is0To9 c = false) → StyleFromSequence (ds ++ tail) = 0) ∧
    (∀ s : List Char, (ReadNext s).1 ≠ TokenType.number → StyleFromSequence s = 0) ∧
    (∀ (a sep : Char) (rest : List Char), Is0To9 a = true → IsSeparator sep = true →
      StyleFromSequence (a :: sep :: '3' :: '8' :: rest) =
        StyleFromSequence ('3' :: '8' :: rest)) :=
  ⟨style38_resolve, style38_default, style48, bigNumber_default, notNumber_default,
   attr_transparent⟩

/-- C4 witness: "38;5;196m" resolves to 49; the ':'-separated "38:5:300m"
resolves 300 mod 256 = 44 to ES_CYAN = 46; the 38-family shapes
"38;2;1;2;3m", "38;6;1m" and "38;" return 0; "48;5;21m", "300m" and "m"
return 0; and the attribute form "1;38;5;196m" equals "38;5;196m". -/
theorem claim_C4_witness :
    StyleFromSequence (toL "38;5;196m") = 49 ∧
    StyleFromSequence (toL "38:5:300m") = 46 ∧
    StyleFromSequence (toL "38;2;1;2;3m") = 0 ∧
    StyleFromSequence (toL "38;6;1m") = 0 ∧
    StyleFromSequence (toL "38;") = 0 ∧
    StyleFromSequence (toL "48;5;21m") = 0 ∧
    StyleFromSequence (toL "300m") = 0 ∧
    StyleFromSequence (toL "m") = 0 ∧
    StyleFromSequence (toL "1;38;5;196m") = StyleFromSequence (toL "38;5;196m") :=
  ⟨(claim_C4_amended.1 ';' (toL "5") ';' (toL "196") (toL "m") (by decide) (by decide)
      (by decide) (by decide) (by decide) (by decide) (by decide) (by decide)).trans (by decide),
   (claim_C4_amended.1 ':' (toL "5") ':' (toL "300") (toL "m") (by decide) (by decide)
      (by decide) (by decide) (by decide) (by decide) (by decide) (by decide)).trans (by decide),
   claim_C4_amended.2.1 (toL ";2;1;2;3m") (by decide)
     (not_shape_of_checker _ (by decide)),
   claim_C4_amended.2.1 (toL ";6;1m") (by decide)
     (not_shape_of_checker _ (by decide)),
   claim_C4_amended.2.1 (toL ";") (by decide)
     (not_shape_of_checker _ (by decide)),
   claim_C4_amended.2.2.1 (toL ";5;21m") (by decide),
   claim_C4_amended.2.2.2.1 (toL "300") (toL "m") (by decide) (by decide) (by decide)
     (by decide),
   claim_C4_amended.2.2.2.2.1 (toL "m") (by decide),
   claim_C4_amended.2.2.2.2.2 '1' ';' (toL ";5;196m") (by decide) (by decide)⟩

theorem takeWhile_eq_take_of_boundary {p : Char → Bool} :
    ∀ (n : Nat) (r : List Char) (d : Char), (∀ c ∈ r.take n, p c = true) →
      (r.drop n).head? = some d → p d = false →
      r.takeWhile p = r.take n ∧ r.dropWhile p = r.drop n := by
  intro n
  induction n with
  | zero =>
    intro r d _ hhead hd
    cases r with
    | nil => simp at hhead
    | cons c r' =>
      simp only [List.drop_zero, List.head?_cons, Option.some_inj] at hhead
      subst hhead
      simp [List.takeWhile_cons, List.dropWhile_cons, hd]
  | succ n ih =>
    intro r d htake hhead hd
    cases r with
    | nil => simp at hhead
    | cons c r' =>
      have hc : p c = true := htake c (by simp)
      have htake' : ∀ x ∈ r'.take n, p x = true := by
        intro x hx
        exact htake x (by simp [hx])
      have hhead' : (r'.drop n).head? = some d := hhead
      obtain ⟨h1, h2⟩ := ih r' d htake' hhead' hd
      constructor
      · simp [List.takeWhile_cons, hc, h1]
      · simp [List.dropWhile_cons, hc, h2]

theorem digitsThenColon_iff (r : List Char) :
    digitsThenColon r = true ↔ BashShapeFrom r := by
  constructor
  · intro h
    cases hr : r with
    | nil => subst hr; simp [digitsThenColon] at h
    | cons c r' =>
      subst hr
      rw [digitsThenColon] at h
      by_cases hc : Is0To9 c = true
      · rw [hc] at h
        simp only [Bool.not_true, Bool.false_eq_true, if_false] at h
        cases hdw : (c :: r').dropWhile Is0To9 with
        | nil => rw [hdw] at h; simp at h
        | cons d rest =>
          rw [hdw] at h
          have hd : d = ':' := by
            simpa using h
          subst hd
          refine ⟨((c :: r').takeWhile Is0To9).length, ?_, ?_, ?_⟩
          · have htwc : (c :: r').takeWhile Is0To9 = c :: r'.takeWhile Is0To9 := by
              simp [List.takeWhile_cons, hc]
            rw [htwc]
            simp
          · intro x hx
            have heq : (c :: r').take ((c :: r').takeWhile Is0To9).length =
                (c :: r').takeWhile Is0To9 :=
              (List.prefix_iff_eq_take.mp (List.takeWhile_prefix _)).symm
            rw [heq] at hx
            exact List.mem_takeWhile_imp hx
          · have htk : (c :: r').take ((c :: r').takeWhile Is0To9).length =
                (c :: r').takeWhile Is0To9 :=
              (List.prefix_iff_eq_take.mp (List.takeWhile_prefix _)).symm
            have hp1 : (c :: r').takeWhile Is0To9 ++
                (c :: r').drop ((c :: r').takeWhile Is0To9).length = (c :: r') := by
              nth_rewrite 1 [← htk]
              exact List.take_append_drop _ _
            have hp2 : (c :: r').takeWhile Is0To9 ++ (c :: r').dropWhile Is0To9 = (c :: r') :=
              List.takeWhile_append_dropWhile _ _
            have heq : (c :: r').drop ((c :: r').takeWhile Is0To9).length =
                (c :: r').dropWhile Is0To9 :=
              List.append_cancel_left (hp1.trans hp2.symm)
            rw [heq, hdw]
            rfl
      · rw [Bool.eq_false_iff.mpr hc] at h
        simp at h
  · rintro ⟨n, hn1, hdig, hcolon⟩
    have hd : Is0To9 ':' = false := by decide
    obtain ⟨h1, h2⟩ := takeWhile_eq_take_of_boundary n r ':' hdig hcolon hd
    cases hr : r with
    | nil =>
      subst hr
      simp at hcolon
    | cons c r' =>
      subst hr
      have hc : Is0To9 c = true := by
        apply hdig
        cases n with
        | zero => omega
        | succ m => simp
      rw [digitsThenColon]
      rw [hc]
      simp only [Bool.not_true, Bool.false_eq_true, if_false]
      rw [h2]
      cases hdr : (c :: r').drop n with
      | nil => rw [hdr] at hcolon; simp at hcolon
      | cons d rest =>
        rw [hdr] at hcolon
        simp only [List.head?_cons, Option.some_inj] at hcolon
        subst hcolon
        rfl

theorem genericScan_ne_26 (l : List Char) : (genericScan l).1 ≠ 26 := by
  unfold genericScan
  dsimp only
  repeat' split
  all_goals simp

theorem recognise_bash_iff (l : List Char) (h : earlyRules l = none) :
    ((RecogniseErrorListLine l).1 = 26 ↔ IsBashDiagnostic (cstrOf l) = true) := by
  unfold RecogniseErrorListLine
  rw [h]
  cases hb : IsBashDiagnostic (cstrOf l) with
  | true => simp [hb]
  | false =>
    simp only [hb, Bool.false_eq_true, if_false]
    constructor
    · intro hc
      split at hc
      · simp at hc
      · exact absurd hc (genericScan_ne_26 l)
    · intro hc
      simp at hc

theorem isBash_iff_shape (sv : List Char) :
    IsBashDiagnostic sv = true ↔
      ∃ i, strstrIdx sv bashMark = some i ∧ BashShapeFrom (sv.drop (i + bashMark.length)) := by
  unfold IsBashDiagnostic
  cases hfind : strstrIdx sv bashMark with
  | none => simp
  | some mark =>
    simp only [Option.some_inj]
    rw [digitsThenColon_iff]
    constructor
    · intro hs
      exact ⟨mark, rfl, hs⟩
    · rintro ⟨i, rfl, hs⟩
      exact hs

/-- C5 (amended): on a line where none of the rules before the bash rule
matched, the classifier returns BASH (26) exactly when the FIRST occurrence
of ": line " in the line's C-string view is immediately followed by one or
more decimal digits and then a colon (the code checks only the first
occurrence, not every occurrence as the claim reads). -/
theorem claim_C5_amended (l : List Char) (h : earlyRules l = none) :
    (RecogniseErrorListLine l).1 = 26 ↔
      ∃ i, strstrIdx (cstrOf l) bashMark = some i ∧
        BashShapeFrom ((cstrOf l).drop (i + bashMark.length)) := by
  rw [recognise_bash_iff l h, isBash_iff_shape]

/-- C5 witness: the amended theorem applied to "sh: line 5: foo" (first
occurrence of ": line " at index 2, followed by the digit 5 and a colon). -/
theorem claim_C5_witness :
    earlyRules (toL "sh: line 5: foo") = none ∧
    (RecogniseErrorListLine (toL "sh: line 5: foo")).1 = 26 :=
  ⟨by decide,
   (claim_C5_amended (toL "sh: line 5: foo") (by decide)).mpr
     ⟨2, by decide, 1, by decide, by decide, by decide⟩⟩

theorem portionLoop_unterm :
    ∀ (fuel : Nat) (p : List Char) (sp : Int) (pst st : Nat) (e : Int),
      hitsUnterminated fuel p = true →
      ∃ pre, portionLoop fuel p sp pst st e = pre ++ [(e, 24)] := by
  intro fuel
  induction fuel with
  | zero =>
    intro p sp pst st e h
    rw [hitsUnterminated] at h
    exact absurd h (by simp)
  | succ f ih =>
    intro p sp pst st e h
    rw [hitsUnterminated] at h
    rw [portionLoop]
    cases hf : strstrIdx p CSI with
    | none =>
      rw [hf] at h
      simp at h
    | some s =>
      rw [hf] at h
      dsimp only at h ⊢
      cases ht : findSeqTermIdx (p.drop (s + 2)) with
      | none =>
        exact ⟨_, rfl⟩
      | some k =>
        rw [ht] at h
        dsimp only at h ⊢
        by_cases hm : getC p (s + 2 + k) == 'm'
        · obtain ⟨pre1, hpre1⟩ :=
            ih (p.drop (s + 2 + k + 1)) (sp + (s + 2 + k : Nat) + 1)
              (StyleFromSequence (p.drop (s + 2))) st e h
          rw [if_pos hm, hpre1]
          exact ⟨_, (List.append_assoc _ _ _).symm⟩
        · rw [if_neg hm]
          by_cases hk : getC p (s + 2 + k) == 'K'
          · obtain ⟨pre2, hpre2⟩ :=
              ih (p.drop (s + 2 + k + 1)) (sp + (s + 2 + k : Nat) + 1) pst st e h
            rw [if_pos hk, hpre2]
            exact ⟨_, (List.append_assoc _ _ _).symm⟩
          · obtain ⟨pre3, hpre3⟩ :=
              ih (p.drop (s + 2 + k + 1)) (sp + (s + 2 + k : Nat) + 1) st st e h
            rw [if_neg hk, hpre3]
            exact ⟨_, (List.append_assoc _ _ _).symm⟩

/-- C7 (amended): whenever the escape-path processing of a line dynamically
reaches a CSI run whose terminator scan runs into the end of the buffer (the
hitsUnterminated skeleton of the loop), the trace the emitter produces for
that line ends with the single call ColourTo(endPos, ESCSEQ_UNKNOWN) — it
styles up to the line range's end as unknown and emits nothing further.  (As
the counterexample shows, the original static phrasing — the mere presence
of such a run in the line — is not sufficient, since a run's scan can
consume a following run's introducer.) -/
theorem claim_C7_amended (l : List Char) (endPos : Int) (vs : Bool)
    (h : hitsUnterminated ((cstrOf l).length + 1) (cstrOf l) = true) :
    ∃ pre, ColouriseErrorListLine l endPos vs true = pre ++ [(endPos, 24)] := by
  have hcsi : hasSub (cstrOf l) CSI = true := by
    rw [hitsUnterminated] at h
    cases hf : strstrIdx (cstrOf l) CSI with
    | none => rw [hf] at h; simp at h
    | some s => unfold hasSub; rw [hf]; rfl
  unfold ColouriseErrorListLine
  dsimp only
  rw [hcsi]
  simp only [Bool.and_true, if_true]
  exact portionLoop_unterm _ _ _ _ _ _ h

/-- C7 witness: the amended theorem applied to the line "ab ESC[12", whose
only CSI run is unterminated. -/
theorem claim_C7_witness :
    hitsUnterminated ((cstrOf (toL "ab\x1b[12")).length + 1) (cstrOf (toL "ab\x1b[12")) = true ∧
    ∃ pre, ColouriseErrorListLine (toL "ab\x1b[12") 5 false true = pre ++ [((5 : Int), 24)] :=
  ⟨by decide, claim_C7_amended (toL "ab\x1b[12") 5 false (by decide)⟩

theorem prefixScanLoop_shift :
    ∀ (fuel : Nat) (pr : List Char) (fullLen : Nat) (pos : Int) (st : Nat) (d : Int),
      prefixScanLoop fuel pr fullLen (pos + d) st =
        (prefixScanLoop fuel pr fullLen pos st).map (fun ev => (ev.1 + d, ev.2)) := by
  intro fuel
  induction fuel with
  | zero => intro pr fullLen pos st d; rfl
  | succ f ih =>
    intro pr fullLen pos st d
    rw [prefixScanLoop, prefixScanLoop]
    by_cases he : pr.isEmpty
    · rw [if_pos he, if_pos he]
      rfl
    · rw [if_neg he, if_neg he]
      cases hfo : findOtherEscape pr with
      | none =>
        dsimp only
        simp [add_right_comm]
      | some ol =>
        obtain ⟨oPos, oLen⟩ := ol
        dsimp only
        have hrec : prefixScanLoop f (pr.drop (oPos + oLen)) fullLen
              (pos + d + (oPos : Int) + (oLen : Int)) st =
            (prefixScanLoop f (pr.drop (oPos + oLen)) fullLen
              (pos + (oPos : Int) + (oLen : Int)) st).map (fun ev => (ev.1 + d, ev.2)) := by
          rw [show pos + d + (oPos : Int) + (oLen : Int) =
            (pos + (oPos : Int) + (oLen : Int)) + d by ring]
          exact ih _ _ _ _ _
        by_cases hz : oPos ≠ 0
        · rw [if_pos hz, if_pos hz, hrec]
          rw [show pos + d + (oPos : Int) + (oLen : Int) =
            pos + (oPos : Int) + (oLen : Int) + d by ring]
          rw [show pos + d + (oPos : Int) = pos + (oPos : Int) + d by ring]
          simp
        · rw [if_neg hz, if_neg hz, hrec]
          rw [show pos + d + (oPos : Int) + (oLen : Int) =
            pos + (oPos : Int) + (oLen : Int) + d by ring]
          simp

theorem portionLoop_shift :
    ∀ (fuel : Nat) (p : List Char) (sp : Int) (pst st : Nat) (e : Int) (d : Int),
      portionLoop fuel p (sp + d) pst st (e + d) =
        (portionLoop fuel p sp pst st e).map (fun ev => (ev.1 + d, ev.2)) := by
  intro fuel
  induction fuel with
  | zero => intro p sp pst st e d; rfl
  | succ f ih =>
    intro p sp pst st e d
    rw [portionLoop, portionLoop]
    cases hf : strstrIdx p CSI with
    | none => rfl
    | some s =>
      dsimp only
      cases ht : findSeqTermIdx (p.drop (s + 2)) with
      | none =>
        rw [prefixScanLoop_shift (s + 1) (p.take s) s sp pst d]
        simp
      | some k =>
        dsimp only
        have hpos : sp + d + ((s + 2 + k : Nat) : Int) + 1 =
            (sp + ((s + 2 + k : Nat) : Int) + 1) + d := by ring
        by_cases hm : getC p (s + 2 + k) == 'm'
        · rw [if_pos hm, if_pos hm]
          have hrec : portionLoop f (p.drop (s + 2 + k + 1))
                (sp + d + ((s + 2 + k : Nat) : Int) + 1)
                (StyleFromSequence (p.drop (s + 2))) st (e + d) =
              (portionLoop f (p.drop (s + 2 + k + 1)) (sp + ((s + 2 + k : Nat) : Int) + 1)
                (StyleFromSequence (p.drop (s + 2))) st e).map (fun ev => (ev.1 + d, ev.2)) := by
            rw [hpos]
            exact ih _ _ _ _ _ _
          rw [hrec, hpos, prefixScanLoop_shift (s + 1) (p.take s) s sp pst d]
          simp
        · rw [if_neg hm, if_neg hm]
          by_cases hk : getC p (s + 2 + k) == 'K'
          · rw [if_pos hk, if_pos hk]
            have hrec : portionLoop f (p.drop (s + 2 + k + 1))
                  (sp + d + ((s + 2 + k : Nat) : Int) + 1) pst st (e + d) =
                (portionLoop f (p.drop (s + 2 + k + 1)) (sp + ((s + 2 + k : Nat) : Int) + 1)
                  pst st e).map (fun ev => (ev.1 + d, ev.2)) := by
              rw [hpos]
              exact ih _ _ _ _ _ _
            rw [hrec, hpos, prefixScanLoop_shift (s + 1) (p.take s) s sp pst d]
            simp
          · rw [if_neg hk, if_neg hk]
            have hrec : portionLoop f (p.drop (s + 2 + k + 1))
                  (sp + d + ((s + 2 + k : Nat) : Int) + 1) st st (e + d) =
                (portionLoop f (p.drop (s + 2 + k + 1)) (sp + ((s + 2 + k : Nat) : Int) + 1)
                  st st e).map (fun ev => (ev.1 + d, ev.2)) := by
              rw [hpos]
              exact ih _ _ _ _ _ _
            rw [hrec, hpos, prefixScanLoop_shift (s + 1) (p.take s) s sp pst d]
            simp

theorem ColouriseErrorListLine_shift (l : List Char) (e d : Int) (vs es : Bool) :
    ColouriseErrorListLine l (e + d) vs es =
      (ColouriseErrorListLine l e vs es).map (fun ev => (ev.1 + d, ev.2)) := by
  unfold ColouriseErrorListLine
  dsimp only
  by_cases hes : (es && hasSub (cstrOf l) CSI) = true
  · rw [if_pos hes, if_pos hes]
    rw [show e + d - (l.length : Int) = (e - (l.length : Int)) + d by ring]
    exact portionLoop_shift _ _ _ _ _ _ _
  · rw [if_neg hes, if_neg hes]
    by_cases hvs : (vs && decide (0 ≤ (RecogniseErrorListLine l).2)) = true
    · rw [if_pos hvs, if_pos hvs]
      simp only [List.map_cons, List.map_nil]
      rw [show e + d - ((l.length : Int) - (RecogniseErrorListLine l).2) =
        (e - ((l.length : Int) - (RecogniseErrorListLine l).2)) + d by ring]
    · rw [if_neg hvs, if_neg hvs]
      simp

theorem lexLoop_shift (doc1 doc2 : Int → Char) (vs es : Bool) (d : Int) :
    ∀ (n : Nat) (i : Int) (buf : List Char),
      (∀ k : Nat, k < n → doc1 (i + k) = doc2 (i + d + k)) →
      lexLoop doc2 vs es n (i + d) buf =
        (lexLoop doc1 vs es n i buf).map (fun ev => (ev.1 + d, ev.2)) := by
  intro n
  induction n with
  | zero =>
    intro i buf _
    rw [lexLoop, lexLoop]
    by_cases hb : buf.isEmpty
    · rw [if_pos hb, if_pos hb]
      rfl
    · rw [if_neg hb, if_neg hb]
      rw [show i + d - 1 = (i - 1) + d by ring]
      exact ColouriseErrorListLine_shift _ _ _ _ _
  | succ n ih =>
    intro i buf h
    have hc : doc1 i = doc2 (i + d) := by
      have h0 := h 0 (by omega)
      simpa using h0
    rw [lexLoop, lexLoop]
    rw [← hc]
    cases n with
    | zero =>
      have hbuf : (buf ++ [doc1 i]).isEmpty = false := by simp
      have hL : lexLoop doc2 vs es 0 (i + d + 1) (buf ++ [doc1 i]) =
          ColouriseErrorListLine (buf ++ [doc1 i]) (i + d) vs es := by
        rw [lexLoop, if_neg (by rw [hbuf]; exact Bool.false_ne_true)]
        rw [show i + d + 1 - 1 = i + d by ring]
      have hR : lexLoop doc1 vs es 0 (i + 1) (buf ++ [doc1 i]) =
          ColouriseErrorListLine (buf ++ [doc1 i]) i vs es := by
        rw [lexLoop, if_neg (by rw [hbuf]; exact Bool.false_ne_true)]
        rw [show i + 1 - 1 = i by ring]
      have hshift := ColouriseErrorListLine_shift (buf ++ [doc1 i]) i d vs es
      by_cases h1 : AtEOL doc1 i = true
      · rw [if_pos h1]
        by_cases h2 : AtEOL doc2 (i + d) = true
        · rw [if_pos h2]
          rw [show lexLoop doc2 vs es 0 (i + d + 1) [] = [] from rfl]
          rw [show lexLoop doc1 vs es 0 (i + 1) [] = [] from rfl]
          rw [List.append_nil, List.append_nil]
          exact hshift
        · rw [if_neg h2, hL]
          rw [show lexLoop doc1 vs es 0 (i + 1) [] = [] from rfl]
          rw [List.append_nil]
          exact hshift
      · rw [if_neg h1]
        by_cases h2 : AtEOL doc2 (i + d) = true
        · rw [if_pos h2, hR]
          rw [show lexLoop doc2 vs es 0 (i + d + 1) [] = [] from rfl]
          rw [List.append_nil]
          exact hshift
        · rw [if_neg h2, hL, hR]
          exact hshift
    | succ m =>
      have h1' : doc1 (i + 1) = doc2 (i + d + 1) := by
        have hh := h 1 (by omega)
        have e1 : i + ((1 : Nat) : Int) = i + 1 := by push_cast; ring
        have e2 : i + d + ((1 : Nat) : Int) = i + d + 1 := by push_cast; ring
        rw [e1, e2] at hh
        exact hh
      have hAt : AtEOL doc2 (i + d) = AtEOL doc1 i := by
        unfold AtEOL
        rw [hc, h1']
      have h' : ∀ k : Nat, k < m + 1 → doc1 (i + 1 + k) = doc2 (i + 1 + d + k) := by
        intro k hk
        have hh := h (k + 1) (by omega)
        have e1 : i + ((k + 1 : Nat) : Int) = i + 1 + k := by push_cast; ring
        have e2 : i + d + ((k + 1 : Nat) : Int) = i + 1 + d + k := by push_cast; ring
        rw [e1, e2] at hh
        exact hh
      rw [hAt]
      by_cases hAt1 : AtEOL doc1 i = true
      · rw [if_pos hAt1, if_pos hAt1]
        rw [List.map_append]
        rw [ColouriseErrorListLine_shift (buf ++ [doc1 i]) i d vs es]
        rw [show i + d + 1 = i + 1 + d by ring]
        rw [ih (i + 1) [] h']
      · rw [if_neg hAt1, if_neg hAt1]
        rw [show i + d + 1 = i + 1 + d by ring]
        exact ih (i + 1) (buf ++ [doc1 i]) h'

/-- C9: classification and emission are a pure function of the characters in
the range only — lexing a range whose characters coincide with those of
another document's range produces the identical trace, merely translated by
the difference of the start positions.  In particular re-running the lexer
over an unchanged range reproduces the same spans (take doc1 = doc2 and
s1 = s2, where the translation is zero). -/
theorem claim_C9_context_independence (doc1 doc2 : Int → Char) (s1 s2 : Int) (len : Nat)
    (vs es : Bool) (h : ∀ k : Nat, k < len → doc1 (s1 + k) = doc2 (s2 + k)) :
    ColouriseTerminalDocInternal doc2 s2 len vs es =
      (ColouriseTerminalDocInternal doc1 s1 len vs es).map
        (fun ev => (ev.1 + (s2 - s1), ev.2)) := by
  unfold ColouriseTerminalDocInternal
  have h' : ∀ k : Nat, k < len → doc1 (s1 + k) = doc2 (s1 + (s2 - s1) + k) := by
    intro k hk
    rw [show s1 + (s2 - s1) = s2 by ring]
    exact h k hk
  have hmain := lexLoop_shift doc1 doc2 vs es (s2 - s1) len s1 [] h'
  rw [show s1 + (s2 - s1) = s2 by ring] at hmain
  exact hmain

/-- C9 witness: the five-character document "> a NL x" lexed at position 0,
against a copy of it placed at position 7. -/
theorem claim_C9_witness :
    (∀ k : Nat, k < 5 → docOf (toL "> a\nx") ((0 : Int) + k) =
      (fun i => docOf (toL "> a\nx") (i - 7)) ((7 : Int) + k)) ∧
    ColouriseTerminalDocInternal (fun i => docOf (toL "> a\nx") (i - 7)) 7 5 false false =
      (ColouriseTerminalDocInternal (docOf (toL "> a\nx")) 0 5 false false).map
        (fun ev => (ev.1 + ((7 : Int) - 0), ev.2)) :=
  ⟨by decide, claim_C9_context_independence (docOf (toL "> a\nx"))
    (fun i => docOf (toL "> a\nx") (i - 7)) 0 7 5 false false (by decide)⟩

end TerminalLex
